import Mathlib

/-!
Verification development for the gym environment specification registry
(`gym/envs/registration.py`): identifier parser, specification records,
the specification tree and the registry façade, shallowly embedded in Lean.

Python machine integers are arbitrary precision, so versions are `Nat`
(the regex only admits `\d+`) and the tree's running length is `Int`
(it is incremented and decremented without bounds checks).  Python dicts
are embedded as insertion-ordered association lists with unique keys.
Fallible code returns `Except GymError`.
-/

/-- Exception kinds raised by the registry code (`gym/error.py` is outside
the surveyed sources; the constructors mirror the exception classes the
registration module raises, each carrying its message).  `typeErr` embeds
the Python `TypeError` raised when `None` is compared with an `int` by
`max`/`sorted` key comparisons.  `keyErr` embeds a raw `KeyError` from a
plain dict subscript (unreachable after the existence assertions). -/
inductive GymError where
  | malformedId (offending : String)
  | namespaceNotFound (msg : String)
  | nameNotFound (msg : String)
  | deprecatedEnv (msg : String)
  | versionNotFound (msg : String)
  | noEntryPoint (msg : String)
  | typeErr
  | keyErr
  deriving DecidableEq, Repr

/-- Values carried by keyword-argument dictionaries (`kwargs`). -/
inductive PyVal where
  | int (n : Int)
  | str (s : String)
  | bool (b : Bool)
  | pynone
  deriving DecidableEq, Repr

/-- Class `\w` of the source regex, restricted to ASCII word characters. -/
def isWordChar (c : Char) : Bool := c.isAlphanum || c == '_'

/-- Character class `[\w:-]` of the namespace group. -/
def isNsChar (c : Char) : Bool := isWordChar c || c == ':' || c == '-'

/-- Character class `[\w:.-]` of the name group. -/
def isNameChar (c : Char) : Bool := isWordChar c || c == ':' || c == '.' || c == '-'

/-- Decimal digit character for a value below ten. -/
def digitChar : Nat → Char
  | 0 => '0' | 1 => '1' | 2 => '2' | 3 => '3' | 4 => '4'
  | 5 => '5' | 6 => '6' | 7 => '7' | 8 => '8' | _ => '9'

/-- Numeric value of a digit string, as Python `int(...)` computes it. -/
def digitsVal (d : List Char) : Nat :=
  d.foldl (fun a c => 10 * a + (c.toNat - 48)) 0

/-- Fuel-driven decimal rendering of a natural number (the digits of
`f"{n}"`); the fuel is structural so the kernel can evaluate it. -/
def natRenderAux : Nat → Nat → List Char
  | 0, _ => []
  | f + 1, n =>
    if n < 10 then [digitChar n]
    else natRenderAux f (n / 10) ++ [digitChar (n % 10)]

/-- Decimal rendering of a natural number, e.g. `natRender 25 = ['2','5']`. -/
def natRender (n : Nat) : List Char := natRenderAux (n + 1) n

/-- String form of `f"{n}"` for a natural number. -/
def natStr (n : Nat) : String := String.mk (natRender n)

/-- Attempt to read the whole list as the version suffix `-v\d+` of the
identifier regex (the digits must run to the end of the string because the
group is followed by the `$` anchor). -/
def verSuffix : List Char → Option Nat
  | c1 :: c2 :: d =>
    if c1 = '-' ∧ c2 = 'v' ∧ d ≠ [] ∧ d.all Char.isDigit = true then some (digitsVal d)
    else none
  | _ => none

/-- The non-greedy name group `[\w:.-]+?` followed by the optional version
group and the anchor, run as the regex engine does: after at least one name
character, at each position first try the version suffix, then the end of
input, and only then consume one more name character.  (On empty input the
version-suffix try is vacuous — `verSuffix [] = none` — so it is checked
only in the nonempty branch, keeping the recursion structural.) -/
def goNV : List Char → List Char → Option (List Char × Option Nat)
  | acc, [] => if acc = [] then none else some (acc, none)
  | acc, c :: cs =>
    if acc ≠ [] ∧ (verSuffix (c :: cs)).isSome then some (acc, verSuffix (c :: cs))
    else if isNameChar c then goNV (acc ++ [c]) cs else none

/-- Core of `parse_env_id` on character lists.  The namespace group
`(?:([\w:-]+)/)?` is greedy but its class excludes `/`, so a successful
match takes the namespace exactly up to the first slash and the rest of the
string may hold no further slash (the name class excludes `/` as well). -/
def parseCore (cs : List Char) : Option (Option (List Char) × List Char × Option Nat) :=
  if cs.any (fun c => c == '/') then
    let ns := cs.takeWhile (fun c => c != '/')
    let rest := (cs.dropWhile (fun c => c != '/')).drop 1
    if ns ≠ [] ∧ ns.all isNsChar = true ∧ rest.any (fun c => c == '/') = false then
      (goNV [] rest).map (fun p => (some ns, p.1, p.2))
    else none
  else (goNV [] cs).map (fun p => (none, p.1, p.2))

/-- Function `parse_env_id`: parses `[namespace/]name[-vVERSION]`, raising a
malformed-identifier error (`error.Error`, carrying the offending string)
when the regex does not fully match. -/
def parse_env_id (s : String) : Except GymError (Option String × String × Option Nat) :=
  match parseCore s.data with
  | some (ns, n, v) => .ok (ns.map String.mk, String.mk n, v)
  | none => .error (.malformedId s)

/-- Canonical identifier string `[namespace/]name[-vVERSION]` rebuilt from
the parsed fields, as the `EnvSpec.id` property computes it. -/
def envIdRender (ns : Option String) (n : String) (v : Option Nat) : String :=
  (match ns with | none => "" | some a => a ++ "/") ++ n ++
    (match v with | none => "" | some m => "-v" ++ natStr m)

/-- Character-list form of the rendered version suffix. -/
def sfxL : Option Nat → List Char
  | none => []
  | some m => '-' :: 'v' :: natRender m

/-- Character-list form of the canonical identifier rendering. -/
def renderL (ns : Option (List Char)) (n : List Char) (v : Option Nat) : List Char :=
  (match ns with | none => [] | some a => a ++ ['/']) ++ n ++ sfxL v

/-- Structure `EnvSpec`: the specification record.  The Python dataclass parses the
`init_id` into the three identity fields once at construction; the field
`ns` embeds the Python attribute `namespace` (a Lean keyword).  The entry
point is an optional construction-target token (a `module:attr` string or
a callable; its callable/string distinction does not affect the claims). -/
structure EnvSpec where
  entry_point : Option String := none
  reward_threshold : Option Int := none
  nondeterministic : Bool := false
  max_episode_steps : Option Nat := none
  order_enforce : Option Bool := some true
  kwargs : List (String × PyVal) := []
  ns : Option String := none
  name : String := ""
  version : Option Nat := none
  deriving DecidableEq, Repr

/-- The dynamic `EnvSpec.id` property: the canonical id recomputed from the
current field values. -/
def EnvSpec.id (s : EnvSpec) : String := envIdRender s.ns s.name s.version

/-- Python `dict.update` on insertion-ordered association lists: keys
already in `base` keep their position and take `upd`'s value; keys new in
`upd` are appended in `upd`'s order. -/
def pyDictUpdate (base upd : List (String × PyVal)) : List (String × PyVal) :=
  base.map (fun p =>
    match upd.lookup p.1 with
    | some v => (p.1, v)
    | none => p) ++
  upd.filter (fun q => (base.lookup q.1).isNone)

/-- Python truthiness of an `Optional[bool]` (`None` and `False` falsy). -/
def pyTruthy (o : Option Bool) : Bool := o.getD false

/-- Adapter applied around the constructed environment by `EnvSpec.make`:
a `TimeLimit` wrapper when the spec declares `max_episode_steps`, else an
`OrderEnforcing` wrapper when `order_enforce` is truthy, else none. -/
inductive WrapperTag where
  | timeLimit (steps : Nat)
  | orderEnforcing
  | plain
  deriving DecidableEq, Repr

/-- The observable result of `EnvSpec.make`: which construction target was
invoked, with which keyword arguments, which (copied) spec was attached to
the produced environment, and which adapter wraps it. -/
structure MadeEnv where
  target : String
  callKwargs : List (String × PyVal)
  attachedSpec : EnvSpec
  wrapper : WrapperTag
  deriving DecidableEq, Repr

/-- Method `EnvSpec.make`: raises when the record has no entry point; otherwise
merges the per-call kwargs over a copy of the stored kwargs
(`_kwargs = self.kwargs.copy(); _kwargs.update(kwargs)`), invokes the
target with the merged kwargs, attaches a deep copy of the spec carrying
the merged kwargs, and wraps the result.  Because `.copy()`/`deepcopy`
allocate fresh objects and nothing writes into `self`, the registered
record after the call is the unchanged input; the embedding returns it as
the first component. -/
def EnvSpec.make (s : EnvSpec) (kwargs : List (String × PyVal)) :
    Except GymError (EnvSpec × MadeEnv) :=
  match s.entry_point with
  | none =>
    .error (.noEntryPoint ("Attempting to make deprecated env " ++ s.id ++
      ". (HINT: is there a newer registered version of this env?)"))
  | some ep =>
    let merged := pyDictUpdate s.kwargs kwargs
    let specCopy : EnvSpec := { s with kwargs := merged }
    .ok (s,
      { target := ep
        callKwargs := merged
        attachedSpec := specCopy
        wrapper :=
          match specCopy.max_episode_steps with
          | some m => .timeLimit m
          | none => if pyTruthy s.order_enforce then .orderEnforcing else .plain })

/-- First-match lookup in an insertion-ordered association list (Python
dict subscript/`in`; dict keys are unique, so first match is the match). -/
def alistFind {α β : Type} [DecidableEq α] (k : α) : List (α × β) → Option β
  | [] => none
  | p :: l => if p.1 = k then some p.2 else alistFind k l

/-- Python dict assignment `d[k] = v`: an existing key keeps its position
and takes the new value; a new key is appended. -/
def alistSet {α β : Type} [DecidableEq α] (k : α) (v : β) : List (α × β) → List (α × β)
  | [] => [(k, v)]
  | p :: l => if p.1 = k then (k, v) :: l else p :: alistSet k v l

/-- Python dict `d.pop(k)`: the entry of key `k` is removed (keys being
unique, removing every match coincides with removing the one match). -/
def alistRemove {α β : Type} [DecidableEq α] (k : α) (l : List (α × β)) : List (α × β) :=
  l.filter (fun p => decide (p.1 ≠ k))

/-- External collaborators consulted by the tree, passed as explicit
parameters of the embedding: `closeMatches` stands for
`difflib.get_close_matches` (used only through emptiness and first
element of its result), `relocationMap` for the read-only
`internal_env_relocation_map` of `gym/envs/__relocated__.py`
(bare name ↦ (relocated namespace, external package)), and `findSpec`
for `importlib.util.find_spec(...) is not None`. -/
structure ExternalDeps where
  closeMatches : String → List String → List String
  relocationMap : List (String × String × String)
  findSpec : String → Bool

/-- A trivial external-dependency bundle (no close matches, empty
relocation table, no package importable), used for concrete evaluation. -/
def emptyDeps : ExternalDeps :=
  { closeMatches := fun _ _ => [], relocationMap := [], findSpec := fun _ => false }

/-- An external-dependency bundle holding one relocated name, mirroring
the `"Breakout" ↦ ("ALE", "ale-py")` entry of the relocation table. -/
def breakoutDeps : ExternalDeps :=
  { closeMatches := fun _ _ => [], relocationMap := [("Breakout", "ALE", "ale-py")],
    findSpec := fun _ => false }

/-- Rendering `str(x)` for an `Optional[str]` as Python f-strings render it. -/
def pyStrOpt : Option String → String
  | none => "None"
  | some s => s

/-- Rendering `str(x)` for an `Optional[int]` as Python f-strings render it. -/
def pyStrOptNat : Option Nat → String
  | none => "None"
  | some k => natStr k

/-- Python truthiness of an `Optional[str]`: `None` and `""` are falsy. -/
def pyTruthyStr (o : Option String) : Bool :=
  match o with
  | none => false
  | some s => decide (s ≠ "")

instance : DecidableEq (String × List (Option Nat × EnvSpec)) := inferInstance

instance : DecidableEq (Option String × List (String × List (Option Nat × EnvSpec))) := inferInstance

/-- The specification tree: a nested insertion-ordered mapping
namespace → name → version → record, plus the running size counter
`_length` (a Python int, incremented and decremented without checks). -/
structure EnvSpecTree where
  tree : List (Option String × List (String × List (Option Nat × EnvSpec)))
  _length : Int
  deriving DecidableEq, Repr

/-- A fresh `EnvSpecTree()`. -/
def emptyEnvSpecTree : EnvSpecTree := { tree := [], _length := 0 }

/-- Method `__len__`: returns the running counter, not a traversal. -/
def EnvSpecTree.pyLen (t : EnvSpecTree) : Int := t._length

/-- Number of leaf records actually reachable in the tree (the
specification-level count `__len__` is supposed to report). -/
def EnvSpecTree.leafCount (t : EnvSpecTree) : Nat :=
  (t.tree.map (fun p => (p.2.map (fun q => q.2.length)).sum)).sum

/-- Method `namespaces()`: `list(filter(None, self.tree.keys()))` — drops the
falsy keys, i.e. `None` and the empty string. -/
def EnvSpecTree.namespaces (t : EnvSpecTree) : List String :=
  t.tree.filterMap (fun p =>
    match p.1 with
    | some s => if s = "" then none else some s
    | none => none)

/-- The version dict `self.tree[ns][name]` as the defaultdict yields it
(an empty dict when a level is missing). -/
def treeVers (t : EnvSpecTree) (ns : Option String) (n : String) :
    List (Option Nat × EnvSpec) :=
  (alistFind n ((alistFind ns t.tree).getD [])).getD []

/-- Method `_assert_namespace_exists`: returns when the namespace key is present,
else raises `NamespaceNotFound` with a suggestion when the namespace is
truthy and `difflib` finds a close known namespace. -/
def EnvSpecTree.assertNamespaceExists (D : ExternalDeps) (t : EnvSpecTree)
    (ns : Option String) : Except GymError Unit :=
  if (alistFind ns t.tree).isSome then .ok ()
  else
    let message := "Namespace `" ++ pyStrOpt ns ++ "` does not exist."
    let message :=
      if pyTruthyStr ns then
        match D.closeMatches (pyStrOpt ns) t.namespaces with
        | s0 :: _ => message ++ " Did you mean: `" ++ s0 ++ "`?"
        | [] => message ++ " Have you installed the proper package for `" ++ pyStrOpt ns ++ "`?"
      else message
    .error (.namespaceNotFound message)

/-- Method `_assert_name_exists`: after asserting the namespace, returns when the
name is present; else raises `NameNotFound`, with the relocation-specific
message when the namespace is the no-namespace key and the name is in the
relocation map (in that branch `namespace != relocated_namespace` compares
`None` with a string and is always true), and the generic message with a
`difflib` suggestion otherwise. -/
def EnvSpecTree.assertNameExists (D : ExternalDeps) (t : EnvSpecTree)
    (ns : Option String) (n : String) : Except GymError Unit := do
  t.assertNamespaceExists D ns
  let names := (alistFind ns t.tree).getD []
  if (alistFind n names).isSome then .ok ()
  else
    match ns, alistFind n D.relocationMap with
    | none, some (rns, pkg) =>
      let message := "The environment `" ++ n ++
        "` has been moved out of Gym to the package `" ++ pkg ++ "`."
      let message :=
        if D.findSpec pkg then message
        else message ++ " Please install the package via `pip install " ++ pkg ++ "`."
      let message :=
        if (none : Option String) ≠ some rns then
          message ++ " You can instantiate the new namespaced environment as `" ++
            rns ++ "/" ++ n ++ "`."
        else message
      .error (.nameNotFound message)
    | _, _ =>
      let message := "Environment `" ++ n ++ "` doesn't exist"
      let message := message ++
        (match ns with | some a => " in namespace `" ++ a ++ "`" | none => "")
      let message := message ++ "."
      let message :=
        match D.closeMatches n (names.map (fun p => p.1)) with
        | s0 :: _ => message ++ " Did you mean: `" ++ s0 ++ "`?"
        | [] => message
      .error (.nameNotFound message)

/-- Python `a > b` on the `spec.version` key values: comparing `None` with
an int (in either order, also `None` with `None`) raises `TypeError`. -/
def pyGtVer : Option Nat → Option Nat → Except GymError Bool
  | some a, some b => .ok (decide (b < a))
  | _, _ => .error .typeErr

/-- Expression `max(all_versions, key=lambda spec: spec.version, default=None)` as
CPython runs it: left fold keeping the current maximum, comparing each
candidate's key against the current maximum's key. -/
def pyMaxByVersion : List EnvSpec → Except GymError (Option EnvSpec)
  | [] => .ok none
  | x :: xs =>
    (xs.foldlM (fun (m s : EnvSpec) => do
      let b ← pyGtVer s.version m.version
      pure (if b then s else m)) x).map some

/-- Sort key of `sorted(all_versions, key=lambda spec: spec.version)`. -/
def verKey (s : EnvSpec) : Nat := s.version.getD 0

/-- Expression `sorted(all_versions, key=lambda spec: spec.version)`: a list of at
most one element needs no comparison; otherwise every element takes part
in a comparison, so a `None` key among integer keys (or two `None` keys)
raises `TypeError`; an all-integer list is sorted ascending (the version
keys of one name's dict are distinct, so stability is immaterial). -/
def pySortedByVersion (l : List EnvSpec) : Except GymError (List EnvSpec) :=
  if l.length ≤ 1 then .ok l
  else if l.all (fun s => s.version.isSome) then
    .ok (List.insertionSort (fun a b => verKey a ≤ verKey b) l)
  else .error .typeErr

/-- The `VersionNotFound` message tail of `_assert_version_exists`:
`"{name} could not be found. "` followed by the ascending listing of the
stored entries (an absent version rendered `vNone`), or the unversioned
note when there are no entries at all. -/
def versionNotFoundMsg (message : String) (n : String)
    (all_versions : List EnvSpec) : Except GymError String := do
  let message := message ++ n ++ " could not be found. "
  if all_versions ≠ [] then do
    let sortedVs ← pySortedByVersion all_versions
    pure (message ++ "Valid versions are: [ " ++
      String.intercalate ", "
        (sortedVs.map (fun s => "`v" ++ pyStrOptNat s.version ++ "`")) ++ " ].")
  else pure (message ++ "This environment appears to be unversioned.")

/-- Raise the `VersionNotFound` branch of `_assert_version_exists`. -/
def raiseVersionNotFound (message : String) (n : String)
    (all_versions : List EnvSpec) : Except GymError Unit := do
  let m ← versionNotFoundMsg message n all_versions
  .error (.versionNotFound m)

/-- Method `_assert_version_exists`: after asserting the name, returns when the
version key is present; else computes the latest stored record by
`max(..., key=lambda spec: spec.version)` and raises `DeprecatedEnv` when
the requested version is an integer strictly below an integer latest
version, `VersionNotFound` otherwise. -/
def EnvSpecTree.assertVersionExists (D : ExternalDeps) (t : EnvSpecTree)
    (ns : Option String) (n : String) (v : Option Nat) : Except GymError Unit := do
  t.assertNameExists D ns n
  let vers := treeVers t ns n
  if (alistFind v vers).isSome then .ok ()
  else do
    let all_versions := vers.map (fun p => p.2)
    let latest_spec ← pyMaxByVersion all_versions
    let message :=
      match v with
      | some k => "Environment version `v" ++ natStr k ++ "` for `"
      | none => "The default version for `"
    let message := message ++
      (match ns with | some a => a ++ "/" | none => "") ++ n ++ "` "
    match latest_spec, v with
    | some ls, some k =>
      match ls.version with
      | some lv =>
        if k < lv then
          .error (.deprecatedEnv (message ++ "is deprecated. " ++
            "Please use the latest version `v" ++ natStr lv ++ "`."))
        else raiseVersionNotFound message n all_versions
      | none => raiseVersionNotFound message n all_versions
    | _, _ => raiseVersionNotFound message n all_versions

/-- Method `__getitem__`: parse, assert existence, return the leaf (the final
plain-dict subscript cannot miss after the assertion, but is embedded
faithfully as a possible `KeyError`). -/
def EnvSpecTree.getitem (D : ExternalDeps) (t : EnvSpecTree) (key : String) :
    Except GymError EnvSpec := do
  let (ns, n, v) ← parse_env_id key
  t.assertVersionExists D ns n v
  match alistFind v (treeVers t ns n) with
  | some s => .ok s
  | none => .error .keyErr

/-- Method `__setitem__`: parse, insert at `[ns][name][version]` (defaultdict
levels spring into existence), and increment the size counter —
unconditionally, also when the leaf already existed. -/
def EnvSpecTree.setitem (t : EnvSpecTree) (key : String) (value : EnvSpec) :
    Except GymError EnvSpecTree := do
  let (ns, n, v) ← parse_env_id key
  let names := (alistFind ns t.tree).getD []
  let vers := (alistFind n names).getD []
  .ok { tree := alistSet ns (alistSet n (alistSet v value vers) names) t.tree
        _length := t._length + 1 }

/-- Method `__delitem__`: parse, assert existence, pop the leaf, pop the name
when its version dict became empty, pop the namespace when its name dict
became empty, decrement the size counter. -/
def EnvSpecTree.delitem (D : ExternalDeps) (t : EnvSpecTree) (key : String) :
    Except GymError EnvSpecTree := do
  let (ns, n, v) ← parse_env_id key
  t.assertVersionExists D ns n v
  let names := (alistFind ns t.tree).getD []
  let vers := (alistFind n names).getD []
  let vers := alistRemove v vers
  let names := if vers.length = 0 then alistRemove n names else alistSet n vers names
  let tree := if names.length = 0 then alistRemove ns t.tree else alistSet ns names t.tree
  .ok { tree := tree, _length := t._length - 1 }

/-- Method `__contains__`: parse (a malformed key raises, as in `__getitem__`),
then the short-circuit conjunction of the three `in` checks
(`namespace in self.tree and name in self.tree[namespace] and version in
self.tree[namespace][name]`), no error on a missing level; a subscript of
an absent level reads as the empty dict, which the preceding `in` check
guards in the source. -/
def EnvSpecTree.containsE (t : EnvSpecTree) (key : String) : Except GymError Bool := do
  let (ns, n, v) ← parse_env_id key
  if (alistFind ns t.tree).isSome &&
      (alistFind n ((alistFind ns t.tree).getD [])).isSome &&
      (alistFind v ((alistFind n ((alistFind ns t.tree).getD [])).getD [])).isSome then
    .ok true
  else
    .ok false

/-- Method `versions(namespace, name)`: assert the name exists, take its stored
records, and when the namespace is the no-namespace key and the name is
relocated, additionally append the records under the relocated namespace,
swallowing `UnregisteredEnv` failures of that second lookup.
Modelled from the spec: `gym/error.py` is outside the surveyed sources;
per the spec, relocation lookup failures are swallowed, so the
namespace-not-found and name-not-found kinds (the only kinds
`_assert_name_exists` raises) are the caught `UnregisteredEnv` subclasses. -/
def EnvSpecTree.versions (D : ExternalDeps) (t : EnvSpecTree)
    (ns : Option String) (n : String) : Except GymError (List EnvSpec) := do
  t.assertNameExists D ns n
  let versions := (treeVers t ns n).map (fun p => p.2)
  match ns, alistFind n D.relocationMap with
  | none, some (rns, _pkg) =>
    match t.assertNameExists D (some rns) n with
    | .ok _ => .ok (versions ++ (treeVers t (some rns) n).map (fun p => p.2))
    | .error (.namespaceNotFound _) => .ok versions
    | .error (.nameNotFound _) => .ok versions
    | .error e => .error e
  | _, _ => .ok versions

/-- Method `names(namespace)`: keys under a namespace, after asserting it. -/
def EnvSpecTree.names (D : ExternalDeps) (t : EnvSpecTree) (ns : Option String) :
    Except GymError (List String) := do
  t.assertNamespaceExists D ns
  .ok (((alistFind ns t.tree).getD []).map (fun p => p.1))

/-- The registry façade: the tree plus the transient scoped namespace
override `_ns`. -/
structure EnvRegistry where
  env_specs : EnvSpecTree
  _ns : Option String := none
  deriving DecidableEq, Repr

/-- A fresh `EnvRegistry()`. -/
def emptyEnvRegistry : EnvRegistry := { env_specs := emptyEnvSpecTree, _ns := none }

/-- The keyword arguments a `register` call forwards to the `EnvSpec`
dataclass (everything except the positional id). -/
structure EnvSpecArgs where
  entry_point : Option String := none
  reward_threshold : Option Int := none
  nondeterministic : Bool := false
  max_episode_steps : Option Nat := none
  order_enforce : Option Bool := some true
  kwargs : List (String × PyVal) := []
  deriving DecidableEq, Repr

/-- Constructor `EnvSpec(id, **kwargs)`: parse the id into the identity fields. -/
def mkEnvSpec (id : String) (a : EnvSpecArgs) : Except GymError EnvSpec := do
  let (ns, n, v) ← parse_env_id id
  .ok { entry_point := a.entry_point, reward_threshold := a.reward_threshold,
        nondeterministic := a.nondeterministic,
        max_episode_steps := a.max_episode_steps,
        order_enforce := a.order_enforce, kwargs := a.kwargs,
        ns := ns, name := n, version := v }

/-- Method `EnvRegistry.register`: build the spec; when a scoped namespace
override is active, force the spec's namespace to it (the warning about a
custom namespace being overridden is logged and alters nothing); the
membership test driving the overriding warning runs `__contains__` on the
recomputed id (and so can raise); insert into the tree. -/
def EnvRegistry.register (r : EnvRegistry) (id : String) (a : EnvSpecArgs) :
    Except GymError EnvRegistry := do
  let spec ← mkEnvSpec id a
  let spec :=
    match r._ns with
    | some nsv => { spec with ns := some nsv }
    | none => spec
  let _overriding ← r.env_specs.containsE spec.id
  let t ← r.env_specs.setitem spec.id spec
  .ok { r with env_specs := t }

/-- Method `EnvRegistry.namespace(ns)` under `@contextlib.contextmanager`: entry
sets the override; the statement after `yield` (clearing the override)
runs only when the caller's block completes normally — an exception thrown
into the generator at the yield point propagates and skips it.  The body
is embedded as a state transformer returning the registry it left behind
plus an optional exception. -/
def EnvRegistry.namespaceScope {ε : Type} (r : EnvRegistry) (nsv : String)
    (body : EnvRegistry → EnvRegistry × Option ε) : EnvRegistry × Option ε :=
  let r1 := { r with _ns := some nsv }
  match body r1 with
  | (r2, none) => ({ r2 with _ns := none }, none)
  | (r2, some e) => (r2, some e)

/-- Specification-side description of the relocation union performed by
`versions` (claim C5's words): the extra records are exactly those stored
for the same name under the relocated namespace, present only when the
request is unnamespaced, the name is in the relocation table, and the
relocated namespace holds matching registrations; in every other case —
including a failing relocated lookup — the extra part is empty.  Stated
separately from the source's try/except implementation so the two can be
compared. -/
def versionsSpecExtra (D : ExternalDeps) (t : EnvSpecTree) (ns : Option String)
    (n : String) : List EnvSpec :=
  match ns, alistFind n D.relocationMap with
  | none, some (rns, _pkg) =>
    match alistFind (some rns) t.tree with
    | none => []
    | some names2 =>
      match alistFind n names2 with
      | none => []
      | some vers2 => vers2.map (fun p => p.2)
  | _, _ => []

/-- A concrete record with stored default kwargs, used for evaluation. -/
def sampleSpecKw : EnvSpec :=
  { entry_point := some "m:C", name := "A", version := some 0,
    kwargs := [("a", PyVal.int 1), ("b", PyVal.int 2)] }

/-- Maximum of a list of naturals, `none` when empty (specification-side,
used to state the claims about the latest known version). -/
def maxNatList : List Nat → Option Nat
  | [] => none
  | x :: xs => some (xs.foldl max x)

/-- The claim's "maximum known version ignoring entries whose version is
absent" for a list of records. -/
def maxVersionOf (l : List EnvSpec) : Option Nat :=
  maxNatList (l.filterMap (fun s => s.version))

/-! ## Association-list lemmas -/

theorem alistFind_set_self {α β : Type} [DecidableEq α] (k : α) (v : β) (l : List (α × β)) :
    alistFind k (alistSet k v l) = some v := by
  induction l with
  | nil => simp [alistSet, alistFind]
  | cons p l ih =>
    by_cases h : p.1 = k
    · simp [alistSet, h, alistFind]
    · simp [alistSet, h, alistFind, ih]

theorem alistFind_set_other {α β : Type} [DecidableEq α] (k k' : α) (v : β)
    (l : List (α × β)) (hk : k' ≠ k) :
    alistFind k' (alistSet k v l) = alistFind k' l := by
  have hkk : ¬ k = k' := fun h => hk h.symm
  induction l with
  | nil => simp [alistSet, alistFind, hkk]
  | cons p l ih =>
    by_cases h : p.1 = k
    · subst h
      simp [alistSet, alistFind, hkk]
    · simp [alistSet, alistFind, h, ih]

theorem alistFind_remove_self {α β : Type} [DecidableEq α] (k : α) (l : List (α × β)) :
    alistFind k (alistRemove k l) = none := by
  induction l with
  | nil => simp [alistRemove, alistFind]
  | cons p l ih =>
    by_cases h : p.1 = k
    · simpa [alistRemove, h] using ih
    · simpa [alistRemove, alistFind, h] using ih

/-! ## Decimal rendering lemmas -/

theorem digitChar_val {n : Nat} (h : n < 10) : (digitChar n).toNat - 48 = n := by
  interval_cases n <;> rfl

theorem digitChar_isDigit {n : Nat} (h : n < 10) : (digitChar n).isDigit = true := by
  interval_cases n <;> rfl

theorem digitsVal_append_one (xs : List Char) (c : Char) :
    digitsVal (xs ++ [c]) = 10 * digitsVal xs + (c.toNat - 48) := by
  simp [digitsVal, List.foldl_append]

theorem natRenderAux_spec :
    ∀ f n, n < 10 ^ (f + 1) →
      digitsVal (natRenderAux (f + 1) n) = n ∧ natRenderAux (f + 1) n ≠ [] ∧
        (natRenderAux (f + 1) n).all Char.isDigit = true := by
  intro f
  induction f with
  | zero =>
    intro n hn
    have hn' : n < 10 := by simpa using hn
    simp [natRenderAux, hn', digitsVal, digitChar_val hn', digitChar_isDigit hn']
  | succ f ih =>
    intro n hn
    by_cases h10 : n < 10
    · simp [natRenderAux, h10, digitsVal, digitChar_val h10, digitChar_isDigit h10]
    · have hdiv : n / 10 < 10 ^ (f + 1) := by
        have : n < 10 * 10 ^ (f + 1) := by
          calc n < 10 ^ (f + 1 + 1) := hn
          _ = 10 * 10 ^ (f + 1) := by ring
        exact Nat.div_lt_of_lt_mul this
      obtain ⟨hv, hne, hdig⟩ := ih (n / 10) hdiv
      have hmod : n % 10 < 10 := Nat.mod_lt _ (by norm_num)
      refine ⟨?_, by simp [natRenderAux, h10], ?_⟩
      · rw [show natRenderAux (f + 1 + 1) n =
            natRenderAux (f + 1) (n / 10) ++ [digitChar (n % 10)] by
              simp [natRenderAux, h10]]
        rw [digitsVal_append_one, hv, digitChar_val hmod]
        exact Nat.div_add_mod n 10
      · rw [show natRenderAux (f + 1 + 1) n =
            natRenderAux (f + 1) (n / 10) ++ [digitChar (n % 10)] by
              simp [natRenderAux, h10]]
        simp [List.all_append, hdig, digitChar_isDigit hmod]

theorem self_lt_ten_pow_succ (n : Nat) : n < 10 ^ (n + 1) := by
  calc n < 10 ^ n := Nat.lt_pow_self (by norm_num) n
  _ ≤ 10 ^ (n + 1) := Nat.pow_le_pow_right (by norm_num) (Nat.le_succ n)

theorem digitsVal_natRender (n : Nat) : digitsVal (natRender n) = n :=
  (natRenderAux_spec n n (self_lt_ten_pow_succ n)).1

theorem natRender_ne_nil (n : Nat) : natRender n ≠ [] :=
  (natRenderAux_spec n n (self_lt_ten_pow_succ n)).2.1

theorem natRender_all_digit (n : Nat) : (natRender n).all Char.isDigit = true :=
  (natRenderAux_spec n n (self_lt_ten_pow_succ n)).2.2

theorem isDigit_ne_slash {c : Char} (h : c.isDigit = true) : (c == '/') = false := by
  cases hcb : (c == '/') with
  | false => rfl
  | true =>
    have hc : c = '/' := eq_of_beq hcb
    subst hc
    exact absurd h (by decide)

/-! ## Identifier parser lemmas -/

theorem isNsChar_ne_slash {c : Char} (h : isNsChar c = true) : (c != '/') = true := by
  cases hcb : (c == '/') with
  | false => simp [bne, hcb]
  | true =>
    have hc : c = '/' := eq_of_beq hcb
    subst hc
    exact absurd h (by decide)

theorem isNameChar_ne_slash {c : Char} (h : isNameChar c = true) : (c == '/') = false := by
  cases hcb : (c == '/') with
  | false => rfl
  | true =>
    have hc : c = '/' := eq_of_beq hcb
    subst hc
    exact absurd h (by decide)

theorem verSuffix_render (m : Nat) :
    verSuffix ('-' :: 'v' :: natRender m) = some m := by
  simp [verSuffix, natRender_ne_nil m, natRender_all_digit m, digitsVal_natRender m]

/-- No version suffix can begin strictly inside the name part: the first
character after a proper nonempty prefix of name characters would have to
start `-v<digits>`, but the suffix's own `-` then sits among the digits
(or in the `v` position). -/
theorem verSuffix_mid (t d : List Char) (ht : t ≠ []) :
    verSuffix (t ++ '-' :: 'v' :: d) = none := by
  match t with
  | [] => exact absurd rfl ht
  | [c1] =>
    show verSuffix (c1 :: '-' :: 'v' :: d) = none
    simp only [verSuffix]
    rw [if_neg]
    rintro ⟨-, h2, -, -⟩
    exact absurd h2 (by decide)
  | c1 :: c2 :: t2 =>
    show verSuffix (c1 :: c2 :: (t2 ++ '-' :: 'v' :: d)) = none
    simp only [verSuffix]
    rw [if_neg]
    rintro ⟨-, -, -, hall⟩
    rw [List.all_append, Bool.and_eq_true] at hall
    have hsfx : ('-' :: 'v' :: d).all Char.isDigit = true := hall.2
    simp [List.all_cons] at hsfx

theorem goNV_stop (acc rest : List Char) (h1 : acc ≠ [])
    (h2 : (verSuffix rest).isSome = true) :
    goNV acc rest = some (acc, verSuffix rest) := by
  cases rest with
  | nil => exact absurd h2 (by simp [verSuffix])
  | cons c cs =>
    show (if acc ≠ [] ∧ (verSuffix (c :: cs)).isSome then some (acc, verSuffix (c :: cs))
      else if isNameChar c then goNV (acc ++ [c]) cs else none) = some (acc, verSuffix (c :: cs))
    rw [if_pos ⟨h1, h2⟩]

theorem goNV_nil (acc : List Char) (h1 : acc ≠ []) : goNV acc [] = some (acc, none) := by
  show (if acc = [] then none else some (acc, none)) = some (acc, none)
  rw [if_neg h1]

theorem goNV_nil_nil : goNV [] [] = none := rfl

theorem goNV_cons (acc : List Char) (c : Char) (cs : List Char)
    (hg : ¬(acc ≠ [] ∧ (verSuffix (c :: cs)).isSome = true)) :
    goNV acc (c :: cs) = if isNameChar c then goNV (acc ++ [c]) cs else none := by
  show (if acc ≠ [] ∧ (verSuffix (c :: cs)).isSome then some (acc, verSuffix (c :: cs))
    else if isNameChar c then goNV (acc ++ [c]) cs else none) =
      if isNameChar c then goNV (acc ++ [c]) cs else none
  rw [if_neg hg]

/-- Running the name group over `rest ++ sfx` where `sfx` is a valid
version suffix and no version suffix starts inside `rest`: the whole of
`rest` is consumed into the name and the suffix is taken. -/
theorem goNV_append_sfx (sfx : List Char) (m : Nat) (hs : verSuffix sfx = some m) :
    ∀ (rest acc : List Char), acc ≠ [] → rest.all isNameChar = true →
      (∀ j, j < rest.length → verSuffix (rest.drop j ++ sfx) = none) →
      goNV acc (rest ++ sfx) = some (acc ++ rest, some m) := by
  intro rest
  induction rest with
  | nil =>
    intro acc hacc _ _
    rw [List.nil_append, List.append_nil, goNV_stop acc sfx hacc (by rw [hs]; rfl), hs]
  | cons c rest' ih =>
    intro acc hacc hall hj
    rw [List.all_cons, Bool.and_eq_true] at hall
    obtain ⟨hc, hall'⟩ := hall
    have h0 : verSuffix (c :: (rest' ++ sfx)) = none := by
      have := hj 0 (by simp)
      simpa using this
    rw [List.cons_append, goNV_cons acc c (rest' ++ sfx)
      (by rw [h0]; rintro ⟨-, h⟩; exact absurd h (by simp)), if_pos hc,
      ih (acc ++ [c]) (by simp) hall' (fun j hjl => by
        have := hj (j + 1) (by simpa using Nat.succ_lt_succ hjl)
        simpa using this)]
    simp

/-- Soundness of the name/version group run: a successful result has a
nonempty all-name-characters name, and when no version was taken the name
is exactly the accumulated prefix plus the whole remaining input. -/
theorem goNV_sound :
    ∀ (rest acc nm : List Char) (v : Option Nat), goNV acc rest = some (nm, v) →
      acc.all isNameChar = true →
      nm ≠ [] ∧ nm.all isNameChar = true ∧ (v = none → nm = acc ++ rest) := by
  intro rest
  induction rest with
  | nil =>
    intro acc nm v h hacc
    by_cases ha : acc = []
    · subst ha
      rw [goNV_nil_nil] at h
      exact absurd h (by simp)
    · rw [goNV_nil acc ha] at h
      simp only [Option.some.injEq, Prod.mk.injEq] at h
      obtain ⟨h1, h2⟩ := h
      subst h1
      subst h2
      exact ⟨ha, hacc, fun _ => by simp⟩
  | cons c cs ih =>
    intro acc nm v h hacc
    by_cases hg : acc ≠ [] ∧ (verSuffix (c :: cs)).isSome = true
    · rw [goNV_stop acc (c :: cs) hg.1 hg.2] at h
      simp only [Option.some.injEq, Prod.mk.injEq] at h
      obtain ⟨h1, h2⟩ := h
      subst h1
      refine ⟨hg.1, hacc, fun hv => ?_⟩
      exact absurd hg.2 (by rw [h2, hv]; simp)
    · rw [goNV_cons acc c cs hg] at h
      by_cases hc : isNameChar c = true
      · rw [if_pos hc] at h
        have hstep := ih (acc ++ [c]) nm v h
          (by simp [List.all_append, List.all_cons, hacc, hc])
        exact ⟨hstep.1, hstep.2.1, fun hv => by rw [hstep.2.2 hv]; simp⟩
      · rw [if_neg hc] at h
        exact absurd h (by simp)

theorem no_slash_name {n : List Char} (h : n.all isNameChar = true) :
    n.any (fun c => c == '/') = false := by
  rw [List.any_eq_false]
  intro x hx
  have := isNameChar_ne_slash (List.all_eq_true.mp h x hx)
  simp [this]

theorem no_slash_sfx (v : Option Nat) : (sfxL v).any (fun c => c == '/') = false := by
  cases v with
  | none => rfl
  | some m =>
    simp only [sfxL, List.any_cons]
    rw [List.any_eq_false.mpr]
    · rfl
    · intro x hx
      have := isDigit_ne_slash (List.all_eq_true.mp (natRender_all_digit m) x hx)
      simp [this]

theorem takeWhile_slash (a r : List Char) (ha : ∀ c ∈ a, isNsChar c = true) :
    (a ++ '/' :: r).takeWhile (fun c => c != '/') = a ∧
      (a ++ '/' :: r).dropWhile (fun c => c != '/') = '/' :: r := by
  induction a with
  | nil =>
    constructor <;> simp [List.takeWhile_cons, List.dropWhile_cons]
  | cons x a ih =>
    have hx : (x != '/') = true := isNsChar_ne_slash (ha x (by simp))
    have ih' := ih (fun c hc => ha c (by simp [hc]))
    constructor
    · simp only [List.cons_append, List.takeWhile_cons, hx, if_true]
      rw [ih'.1]
    · simp only [List.cons_append, List.dropWhile_cons, hx, if_true]
      exact ih'.2

/-- The name/version group accepts the re-rendered name and suffix of its
own successful output. -/
theorem goNV_render (n : List Char) (v : Option Nat) (rest0 : List Char)
    (hg : goNV [] rest0 = some (n, v)) :
    goNV [] (n ++ sfxL v) = some (n, v) := by
  cases v with
  | none =>
    have hn : n = rest0 := by
      simpa using (goNV_sound rest0 [] n none hg (by simp)).2.2 rfl
    subst hn
    rw [show sfxL none = [] from rfl, List.append_nil]
    exact hg
  | some m =>
    obtain ⟨hne, hall, -⟩ := goNV_sound rest0 [] n (some m) hg (by simp)
    cases n with
    | nil => exact absurd rfl hne
    | cons c n1 =>
      rw [List.all_cons, Bool.and_eq_true] at hall
      obtain ⟨hc, hall1⟩ := hall
      rw [show sfxL (some m) = '-' :: 'v' :: natRender m from rfl]
      rw [List.cons_append,
        goNV_cons [] c (n1 ++ '-' :: 'v' :: natRender m) (by rintro ⟨h, -⟩; exact h rfl),
        if_pos hc]
      simp only [List.nil_append]
      rw [goNV_append_sfx ('-' :: 'v' :: natRender m) m (verSuffix_render m) n1 [c]
          (by simp) hall1 (fun j hj => by
            refine verSuffix_mid (n1.drop j) (natRender m) ?_
            intro hnil
            rw [List.drop_eq_nil_iff] at hnil
            omega)]
      simp

/-- Parsing accepts the canonical rendering of its own successful output
and reproduces the same components. -/
theorem parseCore_roundtrip (cs : List Char) (ns : Option (List Char)) (n : List Char)
    (v : Option Nat) (h : parseCore cs = some (ns, n, v)) :
    parseCore (renderL ns n v) = some (ns, n, v) := by
  by_cases hslash : cs.any (fun c => c == '/') = true
  · -- namespace branch of the original parse
    unfold parseCore at h
    rw [if_pos hslash] at h
    by_cases hcond : cs.takeWhile (fun c => c != '/') ≠ [] ∧
        (cs.takeWhile (fun c => c != '/')).all isNsChar = true ∧
        ((cs.dropWhile (fun c => c != '/')).drop 1).any (fun c => c == '/') = false
    · rw [if_pos hcond] at h
      obtain ⟨hne, hns, -⟩ := hcond
      rw [Option.map_eq_some'] at h
      obtain ⟨p, hp, heq⟩ := h
      simp only [Prod.mk.injEq] at heq
      obtain ⟨hns_eq, hn_eq, hv_eq⟩ := heq
      subst hns_eq
      subst hn_eq
      subst hv_eq
      obtain ⟨hnmne, hnall, -⟩ := goNV_sound _ [] p.1 p.2 (by rw [← hp]) (by simp)
      have hrender : renderL (some (cs.takeWhile (fun c => c != '/'))) p.1 p.2 =
          cs.takeWhile (fun c => c != '/') ++ '/' :: (p.1 ++ sfxL p.2) := by
        simp [renderL]
      rw [hrender]
      have hnsmem : ∀ c ∈ cs.takeWhile (fun c => c != '/'), isNsChar c = true :=
        List.all_eq_true.mp hns
      have htake := takeWhile_slash (cs.takeWhile (fun c => c != '/'))
        (p.1 ++ sfxL p.2) hnsmem
      have hanyr : (p.1 ++ sfxL p.2).any (fun c => c == '/') = false := by
        rw [List.any_append, no_slash_name hnall, no_slash_sfx p.2]
        rfl
      unfold parseCore
      rw [if_pos (by
        rw [List.any_append]
        simp [List.any_cons])]
      rw [if_pos (by
        refine ⟨?_, ?_, ?_⟩
        · rw [htake.1]; exact hne
        · rw [htake.1]; exact hns
        · rw [htake.2]; simpa using hanyr)]
      rw [htake.2]
      simp only [List.drop_succ_cons, List.drop_zero]
      rw [htake.1, goNV_render p.1 p.2 _ hp]
      rfl
    · rw [if_neg hcond] at h
      exact absurd h (by simp)
  · -- no-namespace branch
    unfold parseCore at h
    rw [if_neg hslash] at h
    rw [Option.map_eq_some'] at h
    obtain ⟨p, hp, heq⟩ := h
    simp only [Prod.mk.injEq] at heq
    obtain ⟨hns_eq, hn_eq, hv_eq⟩ := heq
    subst hns_eq
    subst hn_eq
    subst hv_eq
    obtain ⟨-, hnall, -⟩ := goNV_sound _ [] p.1 p.2 hp (by simp)
    have hrender : renderL none p.1 p.2 = p.1 ++ sfxL p.2 := by
      simp [renderL]
    rw [hrender]
    unfold parseCore
    rw [if_neg (by
      rw [List.any_append, no_slash_name hnall, no_slash_sfx p.2]
      simp)]
    rw [goNV_render p.1 p.2 _ hp]
    rfl

/-- String-level round trip: parsing accepts the canonical rendering of
its own successful output and reproduces the same triple. -/
theorem parse_env_id_roundtrip (s : String) (ns : Option String) (n : String)
    (v : Option Nat) (h : parse_env_id s = .ok (ns, n, v)) :
    parse_env_id (envIdRender ns n v) = .ok (ns, n, v) := by
  unfold parse_env_id at h
  cases hpc : parseCore s.data with
  | none =>
    rw [hpc] at h
    exact absurd h (by simp)
  | some t =>
    obtain ⟨nsl, nl, vl⟩ := t
    rw [hpc] at h
    simp only [Except.ok.injEq, Prod.mk.injEq] at h
    obtain ⟨h1, h2, h3⟩ := h
    subst h1
    subst h2
    subst h3
    have e1 : ("" : String).data = [] := rfl
    have e2 : ("/" : String).data = ['/'] := rfl
    have e3 : ("-v" : String).data = ['-', 'v'] := rfl
    have hdata : (envIdRender (nsl.map String.mk) (String.mk nl) vl).data =
        renderL nsl nl vl := by
      cases nsl <;> cases vl <;>
        simp [envIdRender, renderL, sfxL, natStr, String.data_append, e1, e2, e3]
    unfold parse_env_id
    rw [hdata, parseCore_roundtrip s.data nsl nl vl hpc]

/-! ## Tree assertion lemmas -/

theorem treeVers_of_finds (t : EnvSpecTree) (ns : Option String) (n : String)
    (names : List (String × List (Option Nat × EnvSpec)))
    (vers : List (Option Nat × EnvSpec))
    (h1 : alistFind ns t.tree = some names) (h2 : alistFind n names = some vers) :
    treeVers t ns n = vers := by
  unfold treeVers
  rw [h1, Option.getD_some, h2, Option.getD_some]

theorem assertNamespaceExists_ok (D : ExternalDeps) (t : EnvSpecTree)
    (ns : Option String) (names : List (String × List (Option Nat × EnvSpec)))
    (h : alistFind ns t.tree = some names) :
    t.assertNamespaceExists D ns = .ok () := by
  unfold EnvSpecTree.assertNamespaceExists
  rw [h]
  rfl

theorem assertNamespaceExists_err (D : ExternalDeps) (t : EnvSpecTree)
    (ns : Option String) (h : alistFind ns t.tree = none) :
    ∃ msg, t.assertNamespaceExists D ns = .error (.namespaceNotFound msg) := by
  unfold EnvSpecTree.assertNamespaceExists
  rw [h]
  exact ⟨_, rfl⟩

theorem assertNameExists_ok (D : ExternalDeps) (t : EnvSpecTree)
    (ns : Option String) (n : String)
    (names : List (String × List (Option Nat × EnvSpec)))
    (vers : List (Option Nat × EnvSpec))
    (h1 : alistFind ns t.tree = some names) (h2 : alistFind n names = some vers) :
    t.assertNameExists D ns n = .ok () := by
  unfold EnvSpecTree.assertNameExists
  rw [assertNamespaceExists_ok D t ns names h1]
  simp only [bind, Except.instMonad, Except.bind]
  rw [h1, Option.getD_some, h2]
  rfl

theorem assertNameExists_err_name (D : ExternalDeps) (t : EnvSpecTree)
    (ns : Option String) (n : String)
    (names : List (String × List (Option Nat × EnvSpec)))
    (h1 : alistFind ns t.tree = some names) (h2 : alistFind n names = none) :
    ∃ msg, t.assertNameExists D ns n = .error (.nameNotFound msg) := by
  unfold EnvSpecTree.assertNameExists
  rw [assertNamespaceExists_ok D t ns names h1]
  simp only [bind, Except.instMonad, Except.bind]
  rw [h1, Option.getD_some, h2]
  simp only [Option.isSome_none, Bool.false_eq_true, if_false]
  rcases ns with - | a
  · rcases hr : alistFind n D.relocationMap with - | ⟨rns, pkg⟩
    · exact ⟨_, rfl⟩
    · exact ⟨_, rfl⟩
  · exact ⟨_, rfl⟩

theorem assertNameExists_err_ns (D : ExternalDeps) (t : EnvSpecTree)
    (ns : Option String) (n : String) (h : alistFind ns t.tree = none) :
    ∃ msg, t.assertNameExists D ns n = .error (.namespaceNotFound msg) := by
  obtain ⟨msg, hmsg⟩ := assertNamespaceExists_err D t ns h
  unfold EnvSpecTree.assertNameExists
  rw [hmsg]
  exact ⟨msg, rfl⟩

theorem assertVersionExists_present (D : ExternalDeps) (t : EnvSpecTree)
    (ns : Option String) (n : String) (v : Option Nat)
    (names : List (String × List (Option Nat × EnvSpec)))
    (vers : List (Option Nat × EnvSpec))
    (h1 : alistFind ns t.tree = some names) (h2 : alistFind n names = some vers)
    (h3 : (alistFind v vers).isSome = true) :
    t.assertVersionExists D ns n v = .ok () := by
  unfold EnvSpecTree.assertVersionExists
  rw [assertNameExists_ok D t ns n names vers h1 h2]
  simp only [bind, Except.instMonad, Except.bind]
  rw [treeVers_of_finds t ns n names vers h1 h2, if_pos h3]

/-! ## Tree operation lemmas -/

theorem setitem_ok (t : EnvSpecTree) (s : String) (ns : Option String) (n : String)
    (v : Option Nat) (r : EnvSpec) (hp : parse_env_id s = .ok (ns, n, v)) :
    t.setitem s r = .ok
      { tree := alistSet ns
          (alistSet n
            (alistSet v r ((alistFind n ((alistFind ns t.tree).getD [])).getD []))
            ((alistFind ns t.tree).getD []))
          t.tree
        _length := t._length + 1 } := by
  unfold EnvSpecTree.setitem
  rw [hp]
  simp only [bind, Except.instMonad, Except.bind]

theorem getitem_of_present (D : ExternalDeps) (t : EnvSpecTree) (s : String)
    (ns : Option String) (n : String) (v : Option Nat)
    (names : List (String × List (Option Nat × EnvSpec)))
    (vers : List (Option Nat × EnvSpec)) (r : EnvSpec)
    (hp : parse_env_id s = .ok (ns, n, v))
    (h1 : alistFind ns t.tree = some names)
    (h2 : alistFind n names = some vers)
    (h3 : alistFind v vers = some r) :
    t.getitem D s = .ok r := by
  unfold EnvSpecTree.getitem
  rw [hp]
  simp only [bind, Except.instMonad, Except.bind]
  rw [assertVersionExists_present D t ns n v names vers h1 h2 (by rw [h3]; rfl)]
  simp only [bind, Except.instMonad, Except.bind]
  rw [treeVers_of_finds t ns n names vers h1 h2, h3]

theorem containsE_false_of_absent (t : EnvSpecTree) (s : String)
    (ns : Option String) (n : String) (v : Option Nat)
    (hp : parse_env_id s = .ok (ns, n, v))
    (hv : alistFind v ((alistFind n ((alistFind ns t.tree).getD [])).getD []) = none) :
    t.containsE s = .ok false := by
  unfold EnvSpecTree.containsE
  rw [hp]
  simp only [bind, Except.instMonad, Except.bind]
  rw [if_neg]
  intro hcontra
  rw [Bool.and_eq_true, Bool.and_eq_true] at hcontra
  rw [hv] at hcontra
  exact absurd hcontra.2 (by simp)

theorem alistRemove_all_key {α β : Type} [DecidableEq α] (k : α) (l : List (α × β))
    (h : ∀ p ∈ l, p.1 = k) : alistRemove k l = [] := by
  unfold alistRemove
  rw [List.filter_eq_nil_iff]
  intro p hp
  simp [h p hp]

theorem delitem_shape (D : ExternalDeps) (t : EnvSpecTree) (s : String)
    (ns : Option String) (n : String) (v : Option Nat)
    (names : List (String × List (Option Nat × EnvSpec)))
    (vers : List (Option Nat × EnvSpec))
    (hp : parse_env_id s = .ok (ns, n, v))
    (h1 : alistFind ns t.tree = some names)
    (h2 : alistFind n names = some vers)
    (h3 : (alistFind v vers).isSome = true) :
    ∃ t4, t.delitem D s = .ok t4 ∧
      alistFind v ((alistFind n ((alistFind ns t4.tree).getD [])).getD []) = none ∧
      t4._length = t._length - 1 ∧
      ((∀ p ∈ vers, p.1 = v) →
        alistFind n ((alistFind ns t4.tree).getD []) = none ∧
        ((∀ q ∈ names, q.1 = n) → alistFind ns t4.tree = none)) := by
  unfold EnvSpecTree.delitem
  rw [hp]
  simp only [bind, Except.instMonad, Except.bind]
  rw [assertVersionExists_present D t ns n v names vers h1 h2 h3]
  simp only [bind, Except.instMonad, Except.bind]
  rw [h1, Option.getD_some, h2, Option.getD_some]
  set vers2 := alistRemove v vers with hvers2
  set names2 := if vers2.length = 0 then alistRemove n names else alistSet n vers2 names
    with hnames2
  set tree2 := if names2.length = 0 then alistRemove ns t.tree else alistSet ns names2 t.tree
    with htree2
  refine ⟨_, rfl, ?_, rfl, ?_⟩
  · -- the deleted version is gone at every level shape
    by_cases hn2 : names2.length = 0
    · rw [htree2, if_pos hn2, alistFind_remove_self]
      simp [alistFind]
    · rw [htree2, if_neg hn2, alistFind_set_self, Option.getD_some]
      by_cases hv2 : vers2.length = 0
      · rw [hnames2, if_pos hv2, alistFind_remove_self]
        simp [alistFind]
      · rw [hnames2, if_neg hv2, alistFind_set_self, Option.getD_some, hvers2,
          alistFind_remove_self]
  · -- cleanup of emptied name and namespace
    intro hall
    have hv2 : vers2 = [] := by
      rw [hvers2]
      exact alistRemove_all_key v vers hall
    have hnames2' : names2 = alistRemove n names := by
      rw [hnames2, hv2]
      rfl
    constructor
    · by_cases hn2 : names2.length = 0
      · rw [htree2, if_pos hn2, alistFind_remove_self]
        simp [alistFind]
      · rw [htree2, if_neg hn2, alistFind_set_self, Option.getD_some, hnames2',
          alistFind_remove_self]
    · intro hnall
      have hn2 : names2 = [] := by
        rw [hnames2']
        exact alistRemove_all_key n names hnall
      rw [htree2, if_pos (by rw [hn2]; rfl), alistFind_remove_self]

/-! ## Claim C7 -/

/-- C7: for every tree state and parseable id, `set` then `get` with the
same id returns the identical record; `set` then `delete` then `contains`
returns false; and on any tree where the id exists, `delete` of the last
remaining version of a name removes that name from its namespace, and when
that name was also the namespace's last, the namespace is removed. -/
theorem C7_tree_set_get_delete_contains (D : ExternalDeps) (t t2 : EnvSpecTree)
    (s : String) (ns : Option String) (n : String) (v : Option Nat) (r : EnvSpec)
    (names : List (String × List (Option Nat × EnvSpec)))
    (vers : List (Option Nat × EnvSpec))
    (hp : parse_env_id s = .ok (ns, n, v))
    (h1 : alistFind ns t2.tree = some names)
    (h2 : alistFind n names = some vers)
    (h3 : (alistFind v vers).isSome = true) :
    (∃ ta, t.setitem s r = .ok ta ∧ ta.getitem D s = .ok r ∧
      ∃ tb, ta.delitem D s = .ok tb ∧ tb.containsE s = .ok false) ∧
    (∃ tc, t2.delitem D s = .ok tc ∧
      ((∀ p ∈ vers, p.1 = v) →
        alistFind n ((alistFind ns tc.tree).getD []) = none ∧
        ((∀ q ∈ names, q.1 = n) → alistFind ns tc.tree = none))) := by
  constructor
  · refine ⟨_, setitem_ok t s ns n v r hp, ?_, ?_⟩
    · exact getitem_of_present D _ s ns n v
        (alistSet n (alistSet v r ((alistFind n ((alistFind ns t.tree).getD [])).getD []))
          ((alistFind ns t.tree).getD []))
        (alistSet v r ((alistFind n ((alistFind ns t.tree).getD [])).getD []))
        r hp (alistFind_set_self ns _ t.tree)
        (alistFind_set_self n _ _) (alistFind_set_self v r _)
    · obtain ⟨tb, hdel, hgone, -, -⟩ := delitem_shape D
        { tree := alistSet ns
            (alistSet n (alistSet v r ((alistFind n ((alistFind ns t.tree).getD [])).getD []))
              ((alistFind ns t.tree).getD []))
            t.tree
          _length := t._length + 1 }
        s ns n v
        (alistSet n (alistSet v r ((alistFind n ((alistFind ns t.tree).getD [])).getD []))
          ((alistFind ns t.tree).getD []))
        (alistSet v r ((alistFind n ((alistFind ns t.tree).getD [])).getD []))
        hp (alistFind_set_self ns _ t.tree) (alistFind_set_self n _ _)
        (by rw [alistFind_set_self v r _]; rfl)
      exact ⟨tb, hdel, containsE_false_of_absent tb s ns n v hp hgone⟩
  · obtain ⟨tc, hdel, -, -, hclean⟩ := delitem_shape D t2 s ns n v names vers hp h1 h2 h3
    exact ⟨tc, hdel, hclean⟩

/-- Witness for C7 at a concrete tree and id. -/
theorem C7_tree_set_get_delete_contains_witness :
    (∃ ta, emptyEnvSpecTree.setitem "A-v0" { name := "A", version := some 0 } = .ok ta ∧
      ta.getitem emptyDeps "A-v0" = .ok { name := "A", version := some 0 } ∧
      ∃ tb, ta.delitem emptyDeps "A-v0" = .ok tb ∧ tb.containsE "A-v0" = .ok false) ∧
    (∃ tc, EnvSpecTree.delitem emptyDeps
        { tree := [(none, [("A", [(some 0, { name := "A", version := some 0 })])])]
          _length := 1 } "A-v0" = .ok tc ∧
      alistFind "A" ((alistFind none tc.tree).getD []) = none ∧
      alistFind (none : Option String) tc.tree = none) := by
  obtain ⟨hpart1, tc, hdel, hclean⟩ :=
    C7_tree_set_get_delete_contains emptyDeps emptyEnvSpecTree
      { tree := [(none, [("A", [(some 0, { name := "A", version := some 0 })])])]
        _length := 1 }
      "A-v0" none "A" (some 0) { name := "A", version := some 0 }
      [("A", [(some 0, { name := "A", version := some 0 })])]
      [(some 0, { name := "A", version := some 0 })]
      rfl rfl rfl rfl
  refine ⟨hpart1, tc, hdel, ?_, ?_⟩
  · exact (hclean (by simp)).1
  · exact (hclean (by simp)).2 (by simp)

/-! ## Claim C6 -/

/-- C6: for every identifier string that parses successfully, parsing the
canonical rendering `[namespace/]name[-vVERSION]` of the parsed triple
yields the same triple back — so rebuilding and re-parsing reproduces the
same canonical string (idempotent canonicalization); and for every string,
parsing either succeeds or fails with the malformed-identifier error
carrying that string, no other outcome. -/
theorem C6_parse_roundtrip_and_total (s sAny : String) (ns : Option String)
    (n : String) (v : Option Nat) (h : parse_env_id s = .ok (ns, n, v)) :
    parse_env_id (envIdRender ns n v) = .ok (ns, n, v) ∧
    ((∃ u, parse_env_id sAny = .ok u) ∨
      parse_env_id sAny = .error (.malformedId sAny)) := by
  refine ⟨parse_env_id_roundtrip s ns n v h, ?_⟩
  unfold parse_env_id
  cases hpc : parseCore sAny.data with
  | none => exact Or.inr rfl
  | some t =>
    obtain ⟨nsl, nl, vl⟩ := t
    exact Or.inl ⟨(nsl.map String.mk, String.mk nl, vl), rfl⟩

/-- Witness for C6 at a concrete well-formed and a concrete malformed id. -/
theorem C6_parse_roundtrip_and_total_witness :
    parse_env_id (envIdRender (some "ALE") "Breakout" (some 5)) =
      .ok (some "ALE", "Breakout", some 5) ∧
    ((∃ u, parse_env_id "a/b/c" = .ok u) ∨
      parse_env_id "a/b/c" = .error (.malformedId "a/b/c")) :=
  C6_parse_roundtrip_and_total "ALE/Breakout-v5" "a/b/c" (some "ALE") "Breakout"
    (some 5) rfl

/-! ## Claim C1 -/

/-- C1: `namespace(ns)` sets the override on entry and clears it on normal
exit, but the statement after `yield` is skipped when the caller's block
raises (no try/finally), so on the error exit path the override is NOT
cleared — evaluated at a body that raises, the override remains set,
contradicting the documented guarantee that it is cleared on every exit
path. -/
theorem C1_namespace_override_leaks_on_error :
    (emptyEnvRegistry.namespaceScope "plugin"
      (fun r => (r, some GymError.typeErr))).1._ns = some "plugin" ∧
    (emptyEnvRegistry.namespaceScope "plugin"
      (fun r => (r, (none : Option GymError)))).1._ns = none :=
  ⟨rfl, rfl⟩

/-! ## Claim C2 -/

/-- C2: `__setitem__` increments the size counter unconditionally, also on
an overwrite of an existing leaf, so after two sets of the same canonical
id the counter reports 2 while exactly one leaf record exists (a single
set reports 1): the counter counts insert calls, not unique ids. -/
theorem C2_size_counter_overcounts_on_overwrite :
    ((emptyEnvSpecTree.setitem "A-v0" { name := "A", version := some 0 }).bind
      (fun t1 => t1.setitem "A-v0" { name := "A", version := some 0 })).map
      (fun t2 => (t2.pyLen, t2.leafCount)) = .ok (2, 1) ∧
    (emptyEnvSpecTree.setitem "A-v0" { name := "A", version := some 0 }).map
      (fun t1 => (t1.pyLen, t1.leafCount)) = .ok (1, 1) :=
  ⟨rfl, rfl⟩

/-! ## Claim C9 -/

/-- C9 counterexample: on a malformed input string, `__contains__` does
not return a boolean — the shared parse raises the malformed-identifier
error, which propagates. -/
theorem C9_contains_raises_on_malformed_input :
    emptyEnvSpecTree.containsE "a/b/c" = .error (.malformedId "a/b/c") := rfl

/-- C9 amended: for every input string that parses, `__contains__` raises
no error and returns a boolean that is true exactly when namespace, name
and version are all present, false on any missing level; a malformed input
propagates the same parse error as `get`. -/
theorem C9_contains_bool_on_parseable (t : EnvSpecTree) (s : String)
    (ns : Option String) (n : String) (v : Option Nat)
    (h : parse_env_id s = .ok (ns, n, v)) :
    ∃ b, t.containsE s = .ok b ∧
      (b = true ↔ ∃ names vers spec, alistFind ns t.tree = some names ∧
        alistFind n names = some vers ∧ alistFind v vers = some spec) := by
  unfold EnvSpecTree.containsE
  rw [h]
  simp only [bind, Except.instMonad, Except.bind]
  by_cases hc : ((alistFind ns t.tree).isSome &&
      (alistFind n ((alistFind ns t.tree).getD [])).isSome &&
      (alistFind v ((alistFind n ((alistFind ns t.tree).getD [])).getD [])).isSome) = true
  · rw [if_pos hc]
    refine ⟨true, rfl, ?_⟩
    rw [Bool.and_eq_true, Bool.and_eq_true] at hc
    obtain ⟨⟨hc1, hc2⟩, hc3⟩ := hc
    obtain ⟨names, hn1⟩ := Option.isSome_iff_exists.mp hc1
    rw [hn1, Option.getD_some] at hc2 hc3
    obtain ⟨vers, hn2⟩ := Option.isSome_iff_exists.mp hc2
    rw [hn2, Option.getD_some] at hc3
    obtain ⟨spec, hn3⟩ := Option.isSome_iff_exists.mp hc3
    exact ⟨fun _ => ⟨names, vers, spec, hn1, hn2, hn3⟩, fun _ => rfl⟩
  · rw [if_neg hc]
    refine ⟨false, rfl, ?_⟩
    constructor
    · intro hb
      exact absurd hb (by simp)
    · rintro ⟨names, vers, spec, hx1, hx2, hx3⟩
      refine absurd ?_ hc
      rw [Bool.and_eq_true, Bool.and_eq_true, hx1, Option.getD_some, hx2,
        Option.getD_some, hx3]
      exact ⟨⟨rfl, rfl⟩, rfl⟩

/-- Witness for C9's amended statement at a concrete tree and id. -/
theorem C9_contains_bool_on_parseable_witness :
    ∃ b, emptyEnvSpecTree.containsE "A-v0" = .ok b ∧
      (b = true ↔ ∃ names vers spec,
        alistFind (none : Option String) emptyEnvSpecTree.tree = some names ∧
        alistFind "A" names = some vers ∧ alistFind (some 0) vers = some spec) :=
  C9_contains_bool_on_parseable emptyEnvSpecTree "A-v0" none "A" (some 0) rfl

/-! ## Claim C4 -/

/-- C4 counterexample: after registering `A-v0` and then `A-v1`,
requesting `A-v0` does NOT raise `DeprecatedEnv` — the requested version
exists, so the existence assertion returns early and the stored v0 record
is returned. -/
theorem C4_existing_old_version_is_returned_not_deprecated :
    ((emptyEnvSpecTree.setitem "A-v0"
        { entry_point := some "m:C", name := "A", version := some 0 }).bind
      (fun t1 => (t1.setitem "A-v1"
          { entry_point := some "m:C", name := "A", version := some 1 }).bind
        (fun t2 => t2.getitem emptyDeps "A-v0"))) =
      .ok { entry_point := some "m:C", name := "A", version := some 0 } := rfl

/-- C4 amended: after registering `A-v0` then `A-v1` (and nothing else
under that name), requesting `A-v0` returns the stored v0 record without
raising (`DeprecatedEnv` fires only for a version absent from the tree),
and requesting `A-v2` raises `VersionNotFound` whose message lists the
versions `[v0, v1]` ascending. -/
theorem C4_two_registrations_lookup_outcomes :
    ((emptyEnvSpecTree.setitem "A-v0"
        { entry_point := some "m:C", name := "A", version := some 0 }).bind
      (fun t1 => (t1.setitem "A-v1"
          { entry_point := some "m:C", name := "A", version := some 1 }).bind
        (fun t2 => t2.getitem emptyDeps "A-v0"))) =
      .ok { entry_point := some "m:C", name := "A", version := some 0 } ∧
    ((emptyEnvSpecTree.setitem "A-v0"
        { entry_point := some "m:C", name := "A", version := some 0 }).bind
      (fun t1 => (t1.setitem "A-v1"
          { entry_point := some "m:C", name := "A", version := some 1 }).bind
        (fun t2 => t2.getitem emptyDeps "A-v2"))) =
      .error (.versionNotFound ("Environment version `v2` for `A` A could not be " ++
        "found. Valid versions are: [ `v0`, `v1` ].")) :=
  ⟨rfl, rfl⟩

/-! ## Claim C10 -/

theorem containsE_ok_of_parse (t : EnvSpecTree) (key : String) (ns : Option String)
    (n : String) (v : Option Nat) (hp : parse_env_id key = .ok (ns, n, v)) :
    ∃ b, t.containsE key = .ok b := by
  unfold EnvSpecTree.containsE
  rw [hp]
  simp only [bind, Except.instMonad, Except.bind]
  by_cases hc : ((alistFind ns t.tree).isSome &&
      (alistFind n ((alistFind ns t.tree).getD [])).isSome &&
      (alistFind v ((alistFind n ((alistFind ns t.tree).getD [])).getD [])).isSome) = true
  · rw [if_pos hc]
    exact ⟨true, rfl⟩
  · rw [if_neg hc]
    exact ⟨false, rfl⟩

/-- A `register` call with no active namespace override and an
unnamespaced id stores the record at the unnamespaced root. -/
theorem register_at_root (r : EnvRegistry) (hr : r._ns = none) (id : String)
    (a : EnvSpecArgs) (n : String) (v : Option Nat)
    (hp : parse_env_id id = .ok (none, n, v)) :
    ∃ r3, r.register id a = .ok r3 ∧
      ∃ vers spec, alistFind n ((alistFind none r3.env_specs.tree).getD []) = some vers ∧
        alistFind v vers = some spec ∧ spec.ns = none := by
  unfold EnvRegistry.register mkEnvSpec
  rw [hp]
  simp only [bind, Except.instMonad, Except.bind]
  rw [hr]
  simp only [EnvSpec.id]
  have hcid : parse_env_id (envIdRender none n v) = .ok (none, n, v) :=
    parse_env_id_roundtrip id none n v hp
  obtain ⟨b, hb⟩ := containsE_ok_of_parse r.env_specs (envIdRender none n v) none n v hcid
  rw [hb]
  simp only [bind, Except.instMonad, Except.bind]
  rw [setitem_ok r.env_specs (envIdRender none n v) none n v _ hcid]
  simp only [bind, Except.instMonad, Except.bind]
  refine ⟨_, rfl, ?_⟩
  refine ⟨alistSet v
      { entry_point := a.entry_point, reward_threshold := a.reward_threshold,
        nondeterministic := a.nondeterministic, max_episode_steps := a.max_episode_steps,
        order_enforce := a.order_enforce, kwargs := a.kwargs, ns := none, name := n,
        version := v }
      ((alistFind n ((alistFind none r.env_specs.tree).getD [])).getD []),
    { entry_point := a.entry_point, reward_threshold := a.reward_threshold,
      nondeterministic := a.nondeterministic, max_episode_steps := a.max_episode_steps,
      order_enforce := a.order_enforce, kwargs := a.kwargs, ns := none, name := n,
      version := v }, ?_, ?_, rfl⟩
  · rw [alistFind_set_self, Option.getD_some, alistFind_set_self]
  · rw [alistFind_set_self]

/-- C10: when two namespace scopes are nested and the inner body completes
normally, exiting the inner scope sets the override to the no-override
state (`None`) rather than restoring the outer scope's namespace; a
register call of an unnamespaced id made after the inner block therefore
stores its record at the unnamespaced root, not under the outer
namespace. -/
theorem C10_inner_scope_exit_resets_override (r rb : EnvRegistry)
    (ns1 ns2 : String) (ε : Type) (b : EnvRegistry → EnvRegistry × Option ε)
    (hb : b { r with _ns := some ns2 } = (rb, none))
    (id : String) (a : EnvSpecArgs) (n : String) (v : Option Nat)
    (hid : parse_env_id id = .ok (none, n, v)) :
    ({ r with _ns := some ns1 } : EnvRegistry).namespaceScope ns2 b =
      ({ rb with _ns := none }, none) ∧
    ({ rb with _ns := none } : EnvRegistry)._ns = none ∧
    ∃ r3, ({ rb with _ns := none } : EnvRegistry).register id a = .ok r3 ∧
      ∃ vers spec,
        alistFind n ((alistFind none r3.env_specs.tree).getD []) = some vers ∧
        alistFind v vers = some spec ∧ spec.ns = none := by
  refine ⟨?_, rfl, ?_⟩
  · unfold EnvRegistry.namespaceScope
    simp only [hb]
  · exact register_at_root { rb with _ns := none } rfl id a n v hid

/-- Witness for C10 at a concrete registry, scopes and id. -/
theorem C10_inner_scope_exit_resets_override_witness :
    ({ emptyEnvRegistry with _ns := some "Outer" } : EnvRegistry).namespaceScope "Inner"
      (fun x => (x, (none : Option Unit))) =
      ({ { emptyEnvRegistry with _ns := some "Inner" } with _ns := none }, none) ∧
    ({ { emptyEnvRegistry with _ns := some "Inner" } with _ns := none } :
      EnvRegistry)._ns = none ∧
    ∃ r3, ({ { emptyEnvRegistry with _ns := some "Inner" } with _ns := none } :
        EnvRegistry).register "A-v0" {} = .ok r3 ∧
      ∃ vers spec,
        alistFind "A" ((alistFind none r3.env_specs.tree).getD []) = some vers ∧
        alistFind (some 0) vers = some spec ∧ spec.ns = none :=
  C10_inner_scope_exit_resets_override emptyEnvRegistry
    { emptyEnvRegistry with _ns := some "Inner" } "Outer" "Inner" Unit
    (fun x => (x, none)) rfl "A-v0" {} "A" (some 0) rfl

/-! ## Claim C8 -/

theorem alistLookup_append {β : Type} (k : String) (xs ys : List (String × β)) :
    (xs ++ ys).lookup k =
      match xs.lookup k with
      | some w => some w
      | none => ys.lookup k := by
  induction xs with
  | nil => simp [List.lookup]
  | cons p xs ih =>
    obtain ⟨a, bv⟩ := p
    cases h : (k == a) with
    | true => simp [List.lookup, h]
    | false =>
      simp only [List.cons_append, List.lookup, h]
      exact ih

theorem lookup_map_upd (upd : List (String × PyVal)) (k : String) :
    ∀ base : List (String × PyVal),
      (base.map (fun p =>
        match upd.lookup p.1 with
        | some v => (p.1, v)
        | none => p)).lookup k =
      match base.lookup k with
      | some w => some (match upd.lookup k with | some v => v | none => w)
      | none => none := by
  intro base
  induction base with
  | nil => simp [List.lookup]
  | cons p bs ih =>
    obtain ⟨a, bv⟩ := p
    cases h : (k == a) with
    | true =>
      have hak : k = a := eq_of_beq h
      subst hak
      cases hu : upd.lookup k with
      | none => simp [List.lookup, hu, h]
      | some v => simp [List.lookup, hu, h]
    | false =>
      cases hu : upd.lookup a with
      | none => simp only [List.map, List.lookup, hu, h]; exact ih
      | some v => simp only [List.map, List.lookup, hu, h]; exact ih

theorem lookup_filter_none (base upd : List (String × PyVal)) (k : String)
    (hb : base.lookup k = none) :
    (upd.filter (fun q => (base.lookup q.1).isNone)).lookup k = upd.lookup k := by
  induction upd with
  | nil => rfl
  | cons q us ih =>
    obtain ⟨a, bv⟩ := q
    cases h : (k == a) with
    | true =>
      have hak : k = a := eq_of_beq h
      subst hak
      simp only [List.filter, hb, Option.isNone_none, List.lookup, h]
    | false =>
      cases hkeep : (base.lookup a).isNone with
      | false =>
        simp only [List.filter, hkeep, List.lookup, h]
        exact ih
      | true =>
        simp only [List.filter, hkeep, List.lookup, h]
        exact ih

theorem pyDictUpdate_lookup_in_upd (base upd : List (String × PyVal)) (k : String)
    (h : (upd.lookup k).isSome = true) :
    (pyDictUpdate base upd).lookup k = upd.lookup k := by
  unfold pyDictUpdate
  rw [alistLookup_append, lookup_map_upd upd k base]
  obtain ⟨v, hv⟩ := Option.isSome_iff_exists.mp h
  cases hb : base.lookup k with
  | some w => rw [hv]
  | none => exact lookup_filter_none base upd k hb

theorem pyDictUpdate_lookup_not_in_upd (base upd : List (String × PyVal)) (k : String)
    (h : upd.lookup k = none) :
    (pyDictUpdate base upd).lookup k = base.lookup k := by
  unfold pyDictUpdate
  rw [alistLookup_append, lookup_map_upd upd k base]
  cases hb : base.lookup k with
  | some w => rw [h]
  | none => rw [lookup_filter_none base upd k hb, h]

/-- C8: `EnvSpec.make` invokes the construction target with the per-call
kwargs merged over a copy of the record's stored default kwargs, with the
explicit per-call kwargs winning on conflicting keys and the stored value
surviving on keys the call does not override; the deep-copied attached
spec carries the merged kwargs, and the registered record itself is
returned unchanged by the call. -/
theorem C8_make_merges_kwargs_and_preserves_record (s : EnvSpec)
    (kwargs : List (String × PyVal)) (ep : String) (k1 k2 : String)
    (h : s.entry_point = some ep)
    (hk1 : (kwargs.lookup k1).isSome = true)
    (hk2 : kwargs.lookup k2 = none) :
    ∃ env, s.make kwargs = .ok (s, env) ∧
      env.target = ep ∧
      env.callKwargs = pyDictUpdate s.kwargs kwargs ∧
      env.attachedSpec = { s with kwargs := pyDictUpdate s.kwargs kwargs } ∧
      (pyDictUpdate s.kwargs kwargs).lookup k1 = kwargs.lookup k1 ∧
      (pyDictUpdate s.kwargs kwargs).lookup k2 = s.kwargs.lookup k2 := by
  unfold EnvSpec.make
  rw [h]
  exact ⟨_, rfl, rfl, rfl, rfl, pyDictUpdate_lookup_in_upd s.kwargs kwargs k1 hk1,
    pyDictUpdate_lookup_not_in_upd s.kwargs kwargs k2 hk2⟩

/-- Witness for C8 at a concrete record and concrete per-call kwargs. -/
theorem C8_make_merges_kwargs_and_preserves_record_witness :
    ∃ env, sampleSpecKw.make [("b", PyVal.int 9), ("c", PyVal.int 3)] =
      .ok (sampleSpecKw, env) ∧
      env.target = "m:C" ∧
      env.callKwargs =
        pyDictUpdate sampleSpecKw.kwargs [("b", PyVal.int 9), ("c", PyVal.int 3)] ∧
      env.attachedSpec =
        { sampleSpecKw with
          kwargs := pyDictUpdate sampleSpecKw.kwargs
            [("b", PyVal.int 9), ("c", PyVal.int 3)] } ∧
      (pyDictUpdate sampleSpecKw.kwargs
          [("b", PyVal.int 9), ("c", PyVal.int 3)]).lookup "b" =
        ([("b", PyVal.int 9), ("c", PyVal.int 3)] : List (String × PyVal)).lookup "b" ∧
      (pyDictUpdate sampleSpecKw.kwargs
          [("b", PyVal.int 9), ("c", PyVal.int 3)]).lookup "a" =
        sampleSpecKw.kwargs.lookup "a" :=
  C8_make_merges_kwargs_and_preserves_record sampleSpecKw
    [("b", PyVal.int 9), ("c", PyVal.int 3)] "m:C" "b" "a" rfl rfl rfl

/-! ## Claim C5 -/

/-- C5: `versions(namespace, name)` returns all records stored for the
name under the namespace and, exactly when the namespace is the
no-namespace key, the name is in the relocation table and the relocated
target namespace has matching registrations, additionally the relocated
records, as one sequence; a failing relocated lookup is swallowed and the
base records are returned without error. -/
theorem C5_versions_relocation_union (D : ExternalDeps) (t : EnvSpecTree)
    (ns : Option String) (n : String)
    (names : List (String × List (Option Nat × EnvSpec)))
    (vers : List (Option Nat × EnvSpec))
    (h1 : alistFind ns t.tree = some names)
    (h2 : alistFind n names = some vers) :
    t.versions D ns n = .ok ((vers.map (fun p => p.2)) ++ versionsSpecExtra D t ns n) := by
  unfold EnvSpecTree.versions
  rw [assertNameExists_ok D t ns n names vers h1 h2]
  simp only [bind, Except.instMonad, Except.bind]
  rw [treeVers_of_finds t ns n names vers h1 h2]
  rcases ns with - | a
  · -- no-namespace request: the relocation table is consulted
    cases hrel : alistFind n D.relocationMap with
    | none =>
      simp [versionsSpecExtra, hrel]
    | some pr =>
      obtain ⟨rns, pkg⟩ := pr
      cases hns2 : alistFind (some rns) t.tree with
      | none =>
        obtain ⟨msg, hmsg⟩ := assertNameExists_err_ns D t (some rns) n hns2
        simp [versionsSpecExtra, hrel, hns2, hmsg]
      | some names2 =>
        cases hn2 : alistFind n names2 with
        | none =>
          obtain ⟨msg, hmsg⟩ := assertNameExists_err_name D t (some rns) n names2 hns2 hn2
          simp [versionsSpecExtra, hrel, hns2, hn2, hmsg]
        | some vers2 =>
          simp [versionsSpecExtra, hrel, hns2, hn2,
            assertNameExists_ok D t (some rns) n names2 vers2 hns2 hn2,
            treeVers_of_finds t (some rns) n names2 vers2 hns2 hn2]
  · -- namespaced request: no relocation fallback
    simp [versionsSpecExtra]

/-- Witness for C5 at a concrete tree holding `Breakout` both at the root
and under the relocated `ALE` namespace. -/
theorem C5_versions_relocation_union_witness :
    EnvSpecTree.versions breakoutDeps
      { tree := [(none, [("Breakout", [(some 0, { name := "Breakout", version := some 0 })])]),
                 (some "ALE", [("Breakout",
                   [(some 5, { ns := some "ALE", name := "Breakout", version := some 5 })])])]
        _length := 2 }
      none "Breakout" =
      .ok (([(some 0, ({ name := "Breakout", version := some 0 } : EnvSpec))].map
          (fun p => p.2)) ++
        versionsSpecExtra breakoutDeps
          { tree := [(none, [("Breakout", [(some 0, { name := "Breakout", version := some 0 })])]),
                     (some "ALE", [("Breakout",
                       [(some 5, { ns := some "ALE", name := "Breakout", version := some 5 })])])]
            _length := 2 }
          none "Breakout") :=
  C5_versions_relocation_union breakoutDeps
    { tree := [(none, [("Breakout", [(some 0, { name := "Breakout", version := some 0 })])]),
               (some "ALE", [("Breakout",
                 [(some 5, { ns := some "ALE", name := "Breakout", version := some 5 })])])]
      _length := 2 }
    none "Breakout"
    [("Breakout", [(some 0, { name := "Breakout", version := some 0 })])]
    [(some 0, { name := "Breakout", version := some 0 })]
    rfl rfl

/-! ## Claim C3 -/

theorem foldlM_max_aux :
    ∀ (xs : List EnvSpec) (x : EnvSpec) (a : Nat), x.version = some a →
      xs.all (fun s => s.version.isSome) = true →
      ∃ r, (xs.foldlM (fun (m s : EnvSpec) => do
          let b ← pyGtVer s.version m.version
          pure (if b then s else m)) x) = .ok r ∧
        r.version = some ((xs.filterMap (fun s => s.version)).foldl max a) := by
  intro xs
  induction xs with
  | nil =>
    intro x a hx _
    exact ⟨x, rfl, by simpa using hx⟩
  | cons s xs ih =>
    intro x a hx hall
    rw [List.all_cons, Bool.and_eq_true] at hall
    obtain ⟨hs, hall'⟩ := hall
    obtain ⟨b', hb'⟩ := Option.isSome_iff_exists.mp hs
    have hstep : (fun (m s : EnvSpec) => do
        let b ← pyGtVer s.version m.version
        pure (if b then s else m)) x s = .ok (if a < b' then s else x) := by
      show (do
        let b ← pyGtVer s.version x.version
        pure (if b then s else x) : Except GymError EnvSpec) =
          .ok (if a < b' then s else x)
      rw [hb', hx]
      show (do
        let b ← Except.ok (ε := GymError) (decide (a < b'))
        pure (if b then s else x) : Except GymError EnvSpec) =
          .ok (if a < b' then s else x)
      simp only [bind, Except.instMonad, Except.bind, pure, Except.pure]
      by_cases hab : a < b'
      · simp [hab]
      · simp [hab]
    have hver : (if a < b' then s else x).version = some (max a b') := by
      by_cases hab : a < b'
      · rw [if_pos hab, hb', Nat.max_eq_right (le_of_lt hab)]
      · rw [if_neg hab, hx, Nat.max_eq_left (Nat.le_of_not_lt hab)]
    obtain ⟨r, hr, hrv⟩ := ih (if a < b' then s else x) (max a b') hver hall'
    refine ⟨r, ?_, ?_⟩
    · have hfold : (s :: xs).foldlM (fun (m s : EnvSpec) => do
          let b ← pyGtVer s.version m.version
          pure (if b then s else m)) x =
          ((fun (m s : EnvSpec) => do
            let b ← pyGtVer s.version m.version
            pure (if b then s else m)) x s) >>= fun x' =>
            xs.foldlM (fun (m s : EnvSpec) => do
              let b ← pyGtVer s.version m.version
              pure (if b then s else m)) x' := rfl
      rw [hfold, hstep]
      simp only [bind, Except.instMonad, Except.bind]
      exact hr
    · rw [hrv, show List.filterMap (fun s => s.version) (s :: xs) =
          b' :: List.filterMap (fun s => s.version) xs from by
            simp [List.filterMap_cons, hb'],
        List.foldl_cons]

theorem pyMax_spec (l : List EnvSpec)
    (hmix : l.all (fun s => s.version.isSome) = true ∨ l.length ≤ 1) :
    (l = [] ∧ pyMaxByVersion l = .ok none ∧ maxVersionOf l = none) ∨
    (l ≠ [] ∧ ∃ ls, pyMaxByVersion l = .ok (some ls) ∧ ls.version = maxVersionOf l) := by
  cases l with
  | nil => exact Or.inl ⟨rfl, rfl, rfl⟩
  | cons x xs =>
    refine Or.inr ⟨by simp, ?_⟩
    rcases hmix with hall | hlen
    · rw [List.all_cons, Bool.and_eq_true] at hall
      obtain ⟨hx, hall'⟩ := hall
      obtain ⟨a, ha⟩ := Option.isSome_iff_exists.mp hx
      obtain ⟨r, hr, hrv⟩ := foldlM_max_aux xs x a ha hall'
      refine ⟨r, ?_, ?_⟩
      · have hun : pyMaxByVersion (x :: xs) =
            (xs.foldlM (fun (m s : EnvSpec) => do
              let b ← pyGtVer s.version m.version
              pure (if b then s else m)) x).map some := rfl
        rw [hun, hr]
        rfl
      · rw [hrv]
        unfold maxVersionOf
        rw [show List.filterMap (fun s => s.version) (x :: xs) =
            a :: List.filterMap (fun s => s.version) xs from by
              simp [List.filterMap_cons, ha]]
        rfl
    · have hxs : xs = [] := by
        cases xs with
        | nil => rfl
        | cons y ys => simp at hlen
      subst hxs
      refine ⟨x, rfl, ?_⟩
      cases hx : x.version with
      | none =>
        unfold maxVersionOf
        rw [show List.filterMap (fun s => s.version) [x] = [] by
          simp [List.filterMap_cons, hx]]
        rfl
      | some a =>
        unfold maxVersionOf
        rw [show List.filterMap (fun s => s.version) [x] = [a] by
          simp [List.filterMap_cons, hx]]
        rfl

theorem pySorted_spec (l : List EnvSpec)
    (hmix : l.all (fun s => s.version.isSome) = true ∨ l.length ≤ 1) :
    ∃ sl, pySortedByVersion l = .ok sl ∧ sl.Perm l ∧
      sl.Pairwise (fun a b => verKey a ≤ verKey b) := by
  by_cases hlen : l.length ≤ 1
  · refine ⟨l, by unfold pySortedByVersion; rw [if_pos hlen], List.Perm.refl l, ?_⟩
    match l, hlen with
    | [], _ => exact List.Pairwise.nil
    | [x], _ => exact List.pairwise_singleton _ x
  · have hall : l.all (fun s => s.version.isSome) = true := hmix.resolve_right hlen
    haveI : IsTotal EnvSpec (fun a b => verKey a ≤ verKey b) :=
      ⟨fun a b => Nat.le_total (verKey a) (verKey b)⟩
    haveI : IsTrans EnvSpec (fun a b => verKey a ≤ verKey b) :=
      ⟨fun _ _ _ hab hbc => Nat.le_trans hab hbc⟩
    refine ⟨_, ?_, List.perm_insertionSort _ l, List.sorted_insertionSort _ l⟩
    unfold pySortedByVersion
    rw [if_neg hlen, if_pos hall]

theorem raiseVNF_shape (message n_ : String) (l : List EnvSpec)
    (hmix : l.all (fun s => s.version.isSome) = true ∨ l.length ≤ 1) :
    ∃ msg, raiseVersionNotFound message n_ l = .error (.versionNotFound msg) ∧
      (l ≠ [] → ∃ sl : List EnvSpec, sl.Perm l ∧
        sl.Pairwise (fun a b => verKey a ≤ verKey b) ∧
        ("Valid versions are: [ " ++ String.intercalate ", "
          (sl.map (fun sp => "`v" ++ pyStrOptNat sp.version ++ "`")) ++ " ].").data <:+:
          msg.data) ∧
      (l = [] → ("This environment appears to be unversioned").data <:+: msg.data) := by
  unfold raiseVersionNotFound versionNotFoundMsg
  by_cases hne : l ≠ []
  · rw [if_pos hne]
    obtain ⟨sl, hsl, hperm, hpair⟩ := pySorted_spec l hmix
    rw [hsl]
    simp only [bind, Except.instMonad, Except.bind, pure]
    refine ⟨_, rfl, fun _ => ⟨sl, hperm, hpair, ?_⟩, fun h0 => absurd h0 hne⟩
    refine ⟨(message ++ n_ ++ " could not be found. ").data, [], ?_⟩
    simp [String.data_append, List.append_assoc]
  · rw [if_neg hne]
    simp only [bind, Except.instMonad, Except.bind, pure]
    refine ⟨_, rfl, fun h => absurd h (by simpa using hne), fun _ => ?_⟩
    refine ⟨(message ++ n_ ++ " could not be found. ").data, (".").data, ?_⟩
    have : ("This environment appears to be unversioned").data ++ (".").data =
        ("This environment appears to be unversioned.").data := rfl
    simp [String.data_append, List.append_assoc, ← this]

/-- C3 counterexample: when versioned and unversioned entries coexist
under one name (here `A` and `A-v0`) and a missing version is requested,
the `max(..., key=lambda spec: spec.version)` call compares `None` with an
int and raises `TypeError` — neither `DeprecatedEnv` nor
`VersionNotFound` as the claim requires. -/
theorem C3_mixed_versions_raise_type_error :
    ((emptyEnvSpecTree.setitem "A" { name := "A" }).bind
      (fun t1 => (t1.setitem "A-v0" { name := "A", version := some 0 }).bind
        (fun t2 => t2.getitem emptyDeps "A-v1"))) = .error .typeErr := rfl

theorem deprecatedMsg_tail (X p1 nm p2 : String) :
    (p1 ++ nm ++ p2).data <:+: (X ++ p1 ++ nm ++ p2).data := by
  refine ⟨X.data, [], ?_⟩
  simp [String.data_append, List.append_assoc]

theorem notFound_pack (msg0 nn : String) (vers : List (Option Nat × EnvSpec))
    (hmix : (vers.map (fun p => p.2)).all (fun s => s.version.isSome) = true ∨
      (vers.map (fun p => p.2)).length ≤ 1) :
    ∃ msg, raiseVersionNotFound msg0 nn (vers.map (fun p => p.2)) =
        .error (.versionNotFound msg) ∧
      (vers ≠ [] → ∃ sl : List EnvSpec, sl.Perm (vers.map (fun p => p.2)) ∧
        sl.Pairwise (fun a b => verKey a ≤ verKey b) ∧
        ("Valid versions are: [ " ++ String.intercalate ", "
          (sl.map (fun sp => "`v" ++ pyStrOptNat sp.version ++ "`")) ++ " ].").data <:+:
          msg.data) ∧
      (vers = [] → ("This environment appears to be unversioned").data <:+: msg.data) := by
  obtain ⟨msg, hraise, hsv, hnil2⟩ :=
    raiseVNF_shape msg0 nn (vers.map (fun p => p.2)) hmix
  exact ⟨msg, hraise, fun hvne => hsv (fun hmap => hvne (List.map_eq_nil_iff.mp hmap)),
    fun hveq => hnil2 (by rw [hveq]; rfl)⟩

/-- C3 amended: for every tree state in which the namespace and name exist
but the requested version is absent, PROVIDED the name's entries do not
mix versioned and unversioned records (in mixed states the version
comparison raises a type error instead, see the counterexample): when the
requested version is an integer strictly below the maximum known version
(ignoring absent-version entries), the lookup raises `DeprecatedEnv`
recommending the latest version; otherwise it raises `VersionNotFound`
whose message lists all stored entries' versions sorted ascending (an
unversioned entry rendered `vNone`), or notes the environment is
unversioned when the name holds no entries at all. -/
theorem C3_missing_version_error_selection (D : ExternalDeps) (t : EnvSpecTree)
    (ns : Option String) (n : String) (v : Option Nat)
    (names : List (String × List (Option Nat × EnvSpec)))
    (vers : List (Option Nat × EnvSpec))
    (h1 : alistFind ns t.tree = some names)
    (h2 : alistFind n names = some vers)
    (h3 : alistFind v vers = none)
    (hmix : (vers.map (fun p => p.2)).all (fun s => s.version.isSome) = true ∨
      (vers.map (fun p => p.2)).length ≤ 1) :
    ((∃ k M, v = some k ∧ maxVersionOf (vers.map (fun p => p.2)) = some M ∧ k < M) →
      ∃ msg M, maxVersionOf (vers.map (fun p => p.2)) = some M ∧
        t.assertVersionExists D ns n v = .error (.deprecatedEnv msg) ∧
        ("Please use the latest version `v" ++ natStr M ++ "`.").data <:+: msg.data) ∧
    (¬(∃ k M, v = some k ∧ maxVersionOf (vers.map (fun p => p.2)) = some M ∧ k < M) →
      ∃ msg, t.assertVersionExists D ns n v = .error (.versionNotFound msg) ∧
        (vers ≠ [] → ∃ sl : List EnvSpec, sl.Perm (vers.map (fun p => p.2)) ∧
          sl.Pairwise (fun a b => verKey a ≤ verKey b) ∧
          ("Valid versions are: [ " ++ String.intercalate ", "
            (sl.map (fun sp => "`v" ++ pyStrOptNat sp.version ++ "`")) ++ " ].").data <:+:
            msg.data) ∧
        (vers = [] → ("This environment appears to be unversioned").data <:+: msg.data)) := by
  unfold EnvSpecTree.assertVersionExists
  rw [assertNameExists_ok D t ns n names vers h1 h2]
  simp only [bind, Except.instMonad, Except.bind]
  rw [treeVers_of_finds t ns n names vers h1 h2,
    if_neg (show ¬((alistFind v vers).isSome = true) by rw [h3]; simp)]
  rcases pyMax_spec (vers.map (fun p => p.2)) hmix with
    ⟨hmapnil, hok, hmaxnone⟩ | ⟨hmapne, ls, hok, hlsv⟩
  · rw [hok]
    simp only [bind, Except.instMonad, Except.bind]
    constructor
    · rintro ⟨k, M, -, hM, -⟩
      rw [hmaxnone] at hM
      cases hM
    · intro hnd
      cases v <;> exact notFound_pack _ n vers hmix
  · rw [hok]
    simp only [bind, Except.instMonad, Except.bind]
    cases v with
    | none =>
      constructor
      · rintro ⟨k, M, hk, -, -⟩
        cases hk
      · intro hnd
        exact notFound_pack _ n vers hmix
    | some k =>
      cases hmax : maxVersionOf (vers.map (fun p => p.2)) with
      | none =>
        rw [hmax] at hlsv
        simp only [hlsv]
        constructor
        · rintro ⟨k2, M, -, hM, -⟩
          cases hM
        · intro hnd
          exact notFound_pack _ n vers hmix
      | some M =>
        rw [hmax] at hlsv
        simp only [hlsv]
        by_cases hkM : k < M
        · rw [if_pos hkM]
          constructor
          · intro hdep
            exact ⟨_, M, rfl, rfl, deprecatedMsg_tail _ _ _ _⟩
          · intro hnd
            exact absurd ⟨k, M, rfl, rfl, hkM⟩ hnd
        · rw [if_neg hkM]
          constructor
          · rintro ⟨k2, M2, hk2, hM2, hlt⟩
            injection hk2 with hk3
            injection hM2 with hM3
            exact absurd (hk3 ▸ hM3 ▸ hlt) hkM
          · intro hnd
            exact notFound_pack _ n vers hmix

/-- Witness for C3's amended statement: with only `A-v1` stored, the
missing request `A-v0` raises `DeprecatedEnv` recommending `v1`. -/
theorem C3_missing_version_error_selection_witness :
    ∃ msg M, maxVersionOf (([((some 1 : Option Nat),
        ({ name := "A", version := some 1 } : EnvSpec))]).map (fun p => p.2)) = some M ∧
      EnvSpecTree.assertVersionExists emptyDeps
        { tree := [(none, [("A", [(some 1, { name := "A", version := some 1 })])])], _length := 1 }
        none "A" (some 0) = .error (.deprecatedEnv msg) ∧
      ("Please use the latest version `v" ++ natStr M ++ "`.").data <:+: msg.data := by
  have h := C3_missing_version_error_selection emptyDeps
    { tree := [(none, [("A", [(some 1, { name := "A", version := some 1 })])])], _length := 1 }
    none "A" (some 0)
    [("A", [(some 1, { name := "A", version := some 1 })])]
    [(some 1, { name := "A", version := some 1 })]
    rfl rfl rfl (Or.inl rfl)
  exact h.1 ⟨0, 1, rfl, rfl, by decide⟩
